import Mathlib

/-!
Verification of the bootstrap + signaling + rendezvous server.

The embedding below translates the server source: the credential check
(validateToken), the two rate limiters (allowConnection, allowMessage,
decrementConnection), the per-message dispatch of the websocket handler
(handleMessage), room fan-out (relaySends), the connection/close state
machine of the upgrade and close handlers (handshakeStep, closeStep), and
the RendezvousRegistry (register, discover, removePeer, pruneExpired).
JavaScript Map objects are modeled as association lists with the Map.set,
Map.get and Map.delete operations (setKey, lookupKey, eraseKey); object
identity of websocket sessions is modeled by a numeric session id.
-/

namespace Signal

/-- Map.get: the value stored under key k, if any (first match). -/
def lookupKey {α : Type} (m : List (String × α)) (k : String) : Option α :=
  match m with
  | [] => none
  | kv :: rest => if kv.1 = k then some kv.2 else lookupKey rest k

/-- Map.set: replace the entry under key k in place, or append a new entry. -/
def setKey {α : Type} (m : List (String × α)) (k : String) (v : α) : List (String × α) :=
  match m with
  | [] => [(k, v)]
  | kv :: rest => if kv.1 = k then (k, v) :: rest else kv :: setKey rest k v

/-- Map.delete: remove the entry under key k, if any. -/
def eraseKey {α : Type} (m : List (String × α)) (k : String) : List (String × α) :=
  match m with
  | [] => []
  | kv :: rest => if kv.1 = k then rest else kv :: eraseKey rest k

/-- Number of entries stored under key k. -/
def countKey {α : Type} (m : List (String × α)) (k : String) : Nat :=
  m.countP (fun kv => decide (kv.1 = k))

/-- Scalar JSON values appearing as object fields in envelopes. -/
inductive JsVal where
  | num (n : Int)
  | str (s : String)
  | boolean (b : Bool)
  | nul
deriving DecidableEq

/-- A JSON object: ordered field list, later Map.set wins. -/
abbrev JsObj := List (String × JsVal)

/-- Field access on a JSON object. -/
def jsGet (obj : JsObj) (k : String) : Option JsVal :=
  lookupKey obj k

/-- Buffer.from(s, utf8) viewed as the sequence of character codes.  The two
buffers compared by validateToken are compared bytewise; we model them at
character granularity (for the hex digests involved these coincide, and
bytewise equality of the encodings coincides with character equality). -/
def bufBytes (s : String) : List Nat :=
  s.data.map Char.toNat

/-- crypto.timingSafeEqual on two equal-length byte sequences: accumulate the
XOR of every byte pair into an OR-accumulator and compare with zero. -/
def timingSafeEqual (a b : List Nat) : Bool :=
  decide ((a.zip b).foldl (fun acc p => acc ||| (p.1 ^^^ p.2)) 0 = 0)

/-- validateToken from the server: pass everything when no digest is
configured; reject empty tokens; otherwise hash and compare in constant
time, failing fast on a length mismatch.  The SHA-256 hex function is an
external primitive and is passed in as a parameter. -/
def validateToken (sha256hex : String → String) (sharedTokenHash rawToken : String) : Bool :=
  if sharedTokenHash = "" then true
  else if rawToken = "" then false
  else
    let hashed := sha256hex rawToken
    let a := bufBytes hashed
    let b := bufBytes sharedTokenHash
    if a.length ≠ b.length then false
    else timingSafeEqual a b

/-- Per-address fixed-window message bucket. -/
structure MsgBucket where
  windowStart : Nat
  count : Nat
deriving DecidableEq

/-- allowMessage from the server, acting on the bucket stored for one
address: open or roll the 60 s window, then reject (counting the rejection
in wsRateLimitedTotal, third component) or admit and count the message.
Returns (admitted, stored bucket, wsRateLimitedTotal increment). -/
def allowMessage (bucket : Option MsgBucket) (now maxMessagesPerMinute : Nat) :
    Bool × MsgBucket × Nat :=
  let b :=
    match bucket with
    | none => { windowStart := now, count := 0 }
    | some b0 =>
        if now ≥ b0.windowStart + 60000 then { windowStart := now, count := 0 } else b0
  if b.count ≥ maxMessagesPerMinute then (false, b, 1)
  else (true, { b with count := b.count + 1 }, 0)

/-- allowConnection from the server, acting on the connectionsByIp map:
admit and store the incremented per-address counter unless it would exceed
the cap.  Returns (admitted, map, wsRateLimitedTotal increment). -/
def allowConnection (connectionsByIp : List (String × Nat)) (ip : String)
    (maxConnectionsPerIp : Nat) : Bool × List (String × Nat) × Nat :=
  let next := (lookupKey connectionsByIp ip).getD 0 + 1
  if next > maxConnectionsPerIp then (false, connectionsByIp, 1)
  else (true, setKey connectionsByIp ip next, 0)

/-- JavaScript x || d for a number read from a map: the default replaces
both a missing entry and a stored zero. -/
def jsOrDefault (v : Option Nat) (d : Nat) : Nat :=
  match v with
  | none => d
  | some n => if n = 0 then d else n

/-- decrementConnection from the server: decrement the per-address counter,
deleting the entry when it reaches zero. -/
def decrementConnection (connectionsByIp : List (String × Nat)) (ip : String) :
    List (String × Nat) :=
  let value := jsOrDefault (lookupKey connectionsByIp ip) 1 - 1
  if value = 0 then eraseKey connectionsByIp ip
  else setKey connectionsByIp ip value

/-- Feed a sequence of message arrival times through allowMessage, keeping
the stored bucket up to date (the map write performed on every call). -/
def feedMessages (maxMessagesPerMinute : Nat) (bucket : Option MsgBucket)
    (arrivals : List Nat) : Option MsgBucket :=
  match arrivals with
  | [] => bucket
  | t :: rest =>
      feedMessages maxMessagesPerMinute
        (some (allowMessage bucket t maxMessagesPerMinute).2.1) rest

/-- The error envelope sent to an offending sender. -/
def errEnvelope (code : String) : JsObj :=
  [("type", JsVal.str "error"), ("code", JsVal.str code)]

/-- The heartbeat-ack envelope. -/
def heartbeatAck (now : String) : JsObj :=
  [("type", JsVal.str "heartbeat-ack"), ("now", JsVal.str now)]

/-- The type field of a parsed message. -/
def msgType (m : JsObj) : Option JsVal :=
  jsGet m "type"

/-- The relay envelope: spread of the parsed client object followed by the
four server-stamped fields, each written with Map.set semantics (overwrite
in place or append). -/
def stampEnvelope (message : JsObj) (peerId ns room receivedAt : String) : JsObj :=
  setKey (setKey (setKey (setKey message
    "sourcePeerId" (JsVal.str peerId))
    "namespace" (JsVal.str ns))
    "room" (JsVal.str room))
    "receivedAt" (JsVal.str receivedAt)

/-- Observable outcome of one inbound frame: the bucket written back to the
rate-limit map, envelopes sent back to the sender, the payload fanned out
to the room (if any), and the increments of wsMessagesTotal and
wsRateLimitedTotal. -/
structure HandleOut where
  newBucket : MsgBucket
  toSender : List JsObj
  relayed : Option JsObj
  messagesInc : Nat
  rateLimitedInc : Nat
deriving DecidableEq

/-- The message handler of an admitted session: rate-check (dropping the
frame with a rate_limited error envelope on rejection), count the message,
parse (none models a parse failure), echo heartbeats, consume telemetry
(metric label updates elided: no reply, no fan-out), and otherwise stamp
and relay. -/
def handleMessage (bucket : Option MsgBucket) (now maxMessagesPerMinute : Nat)
    (parsed : Option JsObj) (peerId ns room receivedAt : String) : HandleOut :=
  match allowMessage bucket now maxMessagesPerMinute with
  | (false, b, rl) => ⟨b, [errEnvelope "rate_limited"], none, 0, rl⟩
  | (true, b, _) =>
    match parsed with
    | none => ⟨b, [errEnvelope "invalid_json"], none, 1, 0⟩
    | some message =>
      if msgType message = some (JsVal.str "heartbeat") then
        ⟨b, [heartbeatAck receivedAt], none, 1, 0⟩
      else if msgType message = some (JsVal.str "telemetry") then
        ⟨b, [], none, 1, 0⟩
      else
        ⟨b, [], some (stampEnvelope message peerId ns room receivedAt), 1, 0⟩

/-- Outcome of one frame arriving after a given arrival history: the bucket
produced by the history is fed into the handler. -/
def handleAfter (maxMessagesPerMinute ws now : Nat) (arrivals : List Nat)
    (parsed : Option JsObj) (peerId ns room receivedAt : String) : HandleOut :=
  handleMessage (feedMessages maxMessagesPerMinute (some ⟨ws, 0⟩) arrivals)
    now maxMessagesPerMinute parsed peerId ns room receivedAt

/-- A live websocket session as seen by the room hub: object identity (sid),
the client-supplied peer id, the client address, and whether readyState is
OPEN. -/
structure Session where
  sid : Nat
  peerId : String
  clientAddr : String
  isOpen : Bool
deriving DecidableEq

/-- relayToRoom loop body: walk the member set, skip members that are not
open or whose peerId equals the sender id, and send the payload to the
rest. -/
def relaySends (members : List Session) (senderId : String) (payload : JsObj) :
    List (Session × JsObj) :=
  match members with
  | [] => []
  | ws :: rest =>
      if ws.isOpen = false ∨ ws.peerId = senderId then relaySends rest senderId payload
      else (ws, payload) :: relaySends rest senderId payload

/-- roomKey from the server and from rendezvous.js. -/
def roomKey (ns room : String) : String :=
  ns ++ "::" ++ room

/-- The parts of the process state that the membership invariant speaks
about: the room map, the per-address connection counters, and the metric
counters touched by the upgrade and close handlers. -/
structure ServerState where
  rooms : List (String × List Session)
  connectionsByIp : List (String × Nat)
  wsConnectionsTotal : Nat
  wsActiveConnections : Nat
  wsAuthFailuresTotal : Nat
  wsRateLimitedTotal : Nat
deriving DecidableEq

/-- The state at process start. -/
def initialState : ServerState :=
  ⟨[], [], 0, 0, 0, 0⟩

/-- The upgrade handler on /signal followed, when admitted, by the
connection handler: rate-check the address (429 path), then authenticate
(401 path, with the connection counter already incremented), then add the
session to its room (ensureRoom + Set.add) and bump the connection
metrics.  tokenOk is the result of validateToken on the supplied token. -/
def handshakeStep (maxConnectionsPerIp : Nat) (st : ServerState) (sid : Nat)
    (ip ns room peerId : String) (tokenOk : Bool) : ServerState :=
  match allowConnection st.connectionsByIp ip maxConnectionsPerIp with
  | (false, m, rl) =>
      { st with connectionsByIp := m,
                wsRateLimitedTotal := st.wsRateLimitedTotal + rl }
  | (true, m, _) =>
      if tokenOk = false then
        { st with connectionsByIp := m,
                  wsAuthFailuresTotal := st.wsAuthFailuresTotal + 1 }
      else
        { st with
          connectionsByIp := m,
          rooms := setKey st.rooms (roomKey ns room)
            (((lookupKey st.rooms (roomKey ns room)).getD []) ++ [⟨sid, peerId, ip, true⟩]),
          wsConnectionsTotal := st.wsConnectionsTotal + 1,
          wsActiveConnections := st.wsActiveConnections + 1 }

/-- Locate a live session by object identity. -/
def findSession (rooms : List (String × List Session)) (sid : Nat) :
    Option (String × Session) :=
  match rooms with
  | [] => none
  | kv :: rest =>
      match kv.2.find? (fun s => decide (s.sid = sid)) with
      | some s => some (kv.1, s)
      | none => findSession rest sid

/-- The close handler: remove the session from its room, collapse the room
when empty, release the connection slot of its address, and decrement the
active-connections gauge saturating at zero. -/
def closeStep (st : ServerState) (sid : Nat) : ServerState :=
  match findSession st.rooms sid with
  | none => st
  | some (key, s) =>
      let members := ((lookupKey st.rooms key).getD []).eraseP (fun t => decide (t.sid = sid))
      { st with
        rooms := if members.isEmpty then eraseKey st.rooms key else setKey st.rooms key members,
        connectionsByIp := decrementConnection st.connectionsByIp s.clientAddr,
        wsActiveConnections := st.wsActiveConnections - 1 }

/-- Externally triggered transitions of the membership state: a handshake
attempt (with the outcome of the token check) and a session close. -/
inductive SrvEvent where
  | handshake (sid : Nat) (ip ns room peerId : String) (tokenOk : Bool)
  | close (sid : Nat)
deriving DecidableEq

/-- One transition. -/
def stepEvent (maxConnectionsPerIp : Nat) (st : ServerState) (e : SrvEvent) : ServerState :=
  match e with
  | .handshake sid ip ns room peerId tokenOk =>
      handshakeStep maxConnectionsPerIp st sid ip ns room peerId tokenOk
  | .close sid => closeStep st sid

/-- Run a sequence of transitions from process start. -/
def runEvents (maxConnectionsPerIp : Nat) (events : List SrvEvent) : ServerState :=
  events.foldl (stepEvent maxConnectionsPerIp) initialState

/-- Total room membership over all rooms. -/
def roomMemberSum (st : ServerState) : Nat :=
  (st.rooms.map (fun kv => kv.2.length)).sum

/-- Sum of the per-address connection counters. -/
def bucketSum (st : ServerState) : Nat :=
  (st.connectionsByIp.map Prod.snd).sum

/-- A rendezvous record as stored by RendezvousRegistry.register. -/
structure RendRecord where
  peerId : String
  ns : String
  room : String
  addresses : List String
  metadata : List (String × JsVal)
  seenAt : Int
  expiresAt : Int
deriving DecidableEq

/-- The registry: room key to (peer id to record). -/
abbrev Registry := List (String × List (String × RendRecord))

/-- RendezvousRegistry.register: build the record with seenAt = now and
expiresAt = now + ttlMs and store it under its peer id, replacing any
previous record.  Returns the updated registry and the stored record. -/
def register (reg : Registry) (ns room peerId : String) (addresses : List String)
    (ttlMs : Int) (metadata : List (String × JsVal)) (now : Int) :
    Registry × RendRecord :=
  let record : RendRecord :=
    { peerId := peerId, ns := ns, room := room, addresses := addresses,
      metadata := metadata, seenAt := now, expiresAt := now + ttlMs }
  (setKey reg (roomKey ns room)
    (setKey ((lookupKey reg (roomKey ns room)).getD []) peerId record), record)

/-- RendezvousRegistry.pruneExpired: drop every record with
expiresAt ≤ now, then drop every room left empty. -/
def pruneExpired (reg : Registry) (now : Int) : Registry :=
  (reg.map (fun kv => (kv.1, kv.2.filter (fun pr => decide (now < pr.2.expiresAt))))).filter
    (fun kv => !kv.2.isEmpty)

/-- RendezvousRegistry.discover: prune first, then return up to limit
records of the room sorted by seenAt descending.  Returns the registry
after the prune together with the result list. -/
def discover (reg : Registry) (ns room : String) (limit : Nat) (now : Int) :
    Registry × List RendRecord :=
  let reg1 := pruneExpired reg now
  match lookupKey reg1 (roomKey ns room) with
  | none => (reg1, [])
  | some recs =>
      (reg1, ((recs.map Prod.snd).mergeSort (fun a b => decide (b.seenAt ≤ a.seenAt))).take limit)

/-- RendezvousRegistry.removePeer: delete the record of the peer, collapse
the room when empty, and report whether a record existed. -/
def removePeer (reg : Registry) (ns room peerId : String) : Registry × Bool :=
  match lookupKey reg (roomKey ns room) with
  | none => (reg, false)
  | some recs =>
      let recs1 := recs.eraseP (fun pr => decide (pr.1 = peerId))
      if recs1.isEmpty then (eraseKey reg (roomKey ns room), recs.any (fun pr => decide (pr.1 = peerId)))
      else (setKey reg (roomKey ns room) recs1, recs.any (fun pr => decide (pr.1 = peerId)))

/-- The record list of one room (empty when the room is absent). -/
def recordsOfRoom (reg : Registry) (key : String) : List (String × RendRecord) :=
  (lookupKey reg key).getD []

/-- The shapes a JSON body field ttlMs can take that the claims speak
about: absent, null, the empty string, or a number. -/
inductive TtlField where
  | absent
  | nullv
  | emptyStr
  | num (n : Int)
deriving DecidableEq

/-- Number(body.ttlMs || 60000) of the rendezvous/register handler on those
shapes: every falsy value (absent, null, empty string, zero) falls back to
the default, any other number passes through. -/
def effTtl : TtlField → Int
  | .num n => if n = 0 then 60000 else n
  | _ => 60000

/-- Register calls reaching the registry: from the websocket connection
handler (fixed ttl 60000, websocket transport metadata) and from the
rendezvous/register HTTP handler (ttl coerced by effTtl). -/
inductive RegEvent where
  | wsRegister (ns room peerId clientIp : String) (now : Int)
  | postRegister (ns room peerId : String) (addresses : List String) (ttlMs : TtlField) (now : Int)
deriving DecidableEq

/-- Apply one register call. -/
def applyRegEvent (reg : Registry) (e : RegEvent) : Registry :=
  match e with
  | .wsRegister ns room peerId clientIp now =>
      (register reg ns room peerId [clientIp] 60000 [("transport", JsVal.str "websocket")] now).1
  | .postRegister ns room peerId addresses ttlMs now =>
      (register reg ns room peerId addresses (effTtl ttlMs) [] now).1

/-- Run a sequence of register calls from the empty registry. -/
def runRegEvents (events : List RegEvent) : Registry :=
  events.foldl applyRegEvent []

/-- Well-formedness of one room map: peer-id keys are unique and every
record carries its key as its peerId field. -/
def roomWF (recs : List (String × RendRecord)) : Prop :=
  (recs.map Prod.fst).Nodup ∧ ∀ pr ∈ recs, pr.2.peerId = pr.1

/-- Well-formedness of the registry: room keys are unique and every room is
well-formed.  This is the structural property a JavaScript Map has for
free. -/
def regWF (reg : Registry) : Prop :=
  (reg.map Prod.fst).Nodup ∧ ∀ kv ∈ reg, roomWF kv.2

/-- A register call supplies a nonnegative ttl field: the websocket path
always does, a POST body does when its ttlMs is not a negative number. -/
def eventTtlOk : RegEvent → Bool
  | .wsRegister _ _ _ _ _ => true
  | .postRegister _ _ _ _ (.num n) _ => decide (0 ≤ n)
  | .postRegister _ _ _ _ _ _ => true

theorem lookupKey_setKey_self {α : Type} (m : List (String × α)) (k : String) (v : α) :
    lookupKey (setKey m k v) k = some v := by
  induction m with
  | nil => simp [setKey, lookupKey]
  | cons kv rest ih =>
      by_cases h : kv.1 = k
      · simp [setKey, h, lookupKey]
      · simp [setKey, h, lookupKey, ih]

theorem lookupKey_setKey_ne {α : Type} (m : List (String × α)) (k k1 : String) (v : α)
    (h : k1 ≠ k) : lookupKey (setKey m k v) k1 = lookupKey m k1 := by
  induction m with
  | nil => simp [setKey, lookupKey, Ne.symm h]
  | cons kv rest ih =>
      by_cases hk : kv.1 = k
      · have hne : kv.1 ≠ k1 := by rw [hk]; exact Ne.symm h
        simp [setKey, hk, lookupKey, Ne.symm h, hne]
      · by_cases hk1 : kv.1 = k1
        · simp [setKey, hk, lookupKey, hk1, h]
        · simp [setKey, hk, lookupKey, hk1, ih]

theorem mem_of_lookupKey_eq_some {α : Type} {m : List (String × α)} {k : String} {v : α}
    (h : lookupKey m k = some v) : (k, v) ∈ m := by
  induction m with
  | nil => simp [lookupKey] at h
  | cons kv rest ih =>
      by_cases hk : kv.1 = k
      · simp [lookupKey, hk] at h
        have : kv = (k, v) := by
          obtain ⟨a, b⟩ := kv
          simp only at hk h
          rw [hk, h]
        rw [← this]
        exact List.mem_cons_self kv rest
      · simp [lookupKey, hk] at h
        exact List.mem_cons_of_mem _ (ih h)

theorem lookupKey_eq_none_of_not_mem_keys {α : Type} {m : List (String × α)} {k : String}
    (h : k ∉ m.map Prod.fst) : lookupKey m k = none := by
  induction m with
  | nil => rfl
  | cons kv rest ih =>
      simp only [List.map_cons, List.mem_cons] at h
      push_neg at h
      have hne : ¬ kv.1 = k := fun he => h.1 he.symm
      simp [lookupKey, hne, ih h.2]

theorem mem_keys_of_lookupKey_eq_some {α : Type} {m : List (String × α)} {k : String} {v : α}
    (h : lookupKey m k = some v) : k ∈ m.map Prod.fst := by
  have := mem_of_lookupKey_eq_some h
  exact List.mem_map_of_mem Prod.fst this

theorem lookupKey_eq_none_iff_not_mem_keys {α : Type} {m : List (String × α)} {k : String} :
    lookupKey m k = none ↔ k ∉ m.map Prod.fst := by
  constructor
  · intro h hmem
    cases hv : lookupKey m k with
    | none =>
        induction m with
        | nil => simp at hmem
        | cons kv rest ih =>
            simp only [List.map_cons, List.mem_cons] at hmem
            by_cases hk : kv.1 = k
            · simp [lookupKey, hk] at hv
            · rcases hmem with hmem | hmem
              · exact hk hmem.symm
              · simp only [lookupKey, hk, if_false] at hv h
                exact ih h hmem hv
    | some v => rw [h] at hv; cases hv
  · exact lookupKey_eq_none_of_not_mem_keys

theorem mem_setKey {α : Type} {m : List (String × α)} {k : String} {v : α} {x : String × α}
    (h : x ∈ setKey m k v) : x = (k, v) ∨ x ∈ m := by
  induction m with
  | nil => simp [setKey] at h; left; exact h
  | cons kv rest ih =>
      by_cases hk : kv.1 = k
      · simp only [setKey, hk, if_true, List.mem_cons] at h
        rcases h with h | h
        · left; exact h
        · right; exact List.mem_cons_of_mem _ h
      · simp only [setKey, hk, if_false, List.mem_cons] at h
        rcases h with h | h
        · right; rw [h]; exact List.mem_cons_self kv rest
        · rcases ih h with h1 | h1
          · left; exact h1
          · right; exact List.mem_cons_of_mem _ h1

theorem mem_keys_setKey {α : Type} {m : List (String × α)} {k : String} {v : α} {a : String}
    (h : a ∈ (setKey m k v).map Prod.fst) : a = k ∨ a ∈ m.map Prod.fst := by
  rcases List.mem_map.mp h with ⟨x, hx, hax⟩
  rcases mem_setKey hx with h1 | h1
  · left; rw [← hax, h1]
  · right; rw [← hax]; exact List.mem_map_of_mem Prod.fst h1

theorem nodup_keys_setKey {α : Type} {m : List (String × α)} (k : String) (v : α)
    (h : (m.map Prod.fst).Nodup) : ((setKey m k v).map Prod.fst).Nodup := by
  induction m with
  | nil => simp [setKey]
  | cons kv rest ih =>
      simp only [List.map_cons, List.nodup_cons] at h
      by_cases hk : kv.1 = k
      · simp only [setKey, hk, if_true, List.map_cons, List.nodup_cons]
        exact ⟨hk ▸ h.1, h.2⟩
      · simp only [setKey, hk, if_false, List.map_cons, List.nodup_cons]
        refine ⟨fun hmem => ?_, ih h.2⟩
        rcases mem_keys_setKey hmem with h1 | h1
        · exact hk h1
        · exact h.1 h1

theorem countKey_eq_zero_of_not_mem_keys {α : Type} {m : List (String × α)} {k : String}
    (h : k ∉ m.map Prod.fst) : countKey m k = 0 := by
  apply List.countP_eq_zero.mpr
  intro a ha
  have hmem : a.1 ∈ m.map Prod.fst := List.mem_map_of_mem Prod.fst ha
  simp only [decide_eq_true_eq]
  intro he
  exact h (he ▸ hmem)

theorem countP_key_unique {α : Type} (q : String × α → Bool) :
    ∀ (m : List (String × α)) (k : String) (v : α),
      (m.map Prod.fst).Nodup → (k, v) ∈ m → q (k, v) = true →
      m.countP (fun pr => decide (pr.1 = k) && q pr) = 1 := by
  intro m
  induction m with
  | nil => intro k v _ hm _; simp at hm
  | cons kv rest ih =>
      intro k v hn hm hq
      simp only [List.map_cons, List.nodup_cons] at hn
      rw [List.countP_cons]
      rcases List.mem_cons.mp hm with h | h
      · have hkv : kv.1 = k := by rw [← h]
        have hrest : rest.countP (fun pr => decide (pr.1 = k) && q pr) = 0 := by
          apply List.countP_eq_zero.mpr
          intro a ha
          have hmem : a.1 ∈ rest.map Prod.fst := List.mem_map_of_mem Prod.fst ha
          have hne : a.1 ≠ k := fun he => hn.1 (hkv ▸ he ▸ hmem)
          simp [hne]
        rw [hrest, ← h]
        simp [hq]
      · have hkmem : k ∈ rest.map Prod.fst := by
          have := List.mem_map_of_mem Prod.fst h
          simpa using this
        have hne : kv.1 ≠ k := fun he => hn.1 (he ▸ hkmem)
        rw [ih k v hn.2 h hq]
        simp [hne]

theorem countKey_eq_one_of_mem {α : Type} {m : List (String × α)} {k : String} {v : α}
    (hn : (m.map Prod.fst).Nodup) (hm : (k, v) ∈ m) : countKey m k = 1 := by
  have := countP_key_unique (fun _ => true) m k v hn hm rfl
  simpa [countKey] using this

theorem countKey_setKey_self {α : Type} {m : List (String × α)} (k : String) (v : α)
    (hn : (m.map Prod.fst).Nodup) : countKey (setKey m k v) k = 1 :=
  countKey_eq_one_of_mem (nodup_keys_setKey k v hn)
    (mem_of_lookupKey_eq_some (lookupKey_setKey_self m k v))

theorem countKey_eraseP_self {α : Type} :
    ∀ (m : List (String × α)) (k : String), (m.map Prod.fst).Nodup →
      countKey (m.eraseP (fun pr => decide (pr.1 = k))) k = 0 := by
  intro m
  induction m with
  | nil => intro k _; rfl
  | cons kv rest ih =>
      intro k hn
      simp only [List.map_cons, List.nodup_cons] at hn
      by_cases hk : kv.1 = k
      · rw [List.eraseP_cons]
        have hd : (decide (kv.1 = k)) = true := by simp [hk]
        rw [hd]
        simp only [cond_true]
        exact countKey_eq_zero_of_not_mem_keys (hk ▸ hn.1)
      · rw [List.eraseP_cons]
        have hd : (decide (kv.1 = k)) = false := by simp [hk]
        rw [hd]
        simp only [cond_false]
        simp only [countKey] at ih ⊢
        rw [List.countP_cons]
        simp [ih k hn.2, hd]

theorem eraseKey_sublist {α : Type} (m : List (String × α)) (k : String) :
    (eraseKey m k).Sublist m := by
  induction m with
  | nil => simp [eraseKey]
  | cons kv rest ih =>
      by_cases hk : kv.1 = k
      · simp only [eraseKey, hk, if_true]
        exact List.sublist_cons_self kv rest
      · simp only [eraseKey, hk, if_false]
        exact ih.cons₂ kv

theorem lookupKey_eraseKey_self {α : Type} :
    ∀ (m : List (String × α)) (k : String), (m.map Prod.fst).Nodup →
      lookupKey (eraseKey m k) k = none := by
  intro m
  induction m with
  | nil => intro k _; rfl
  | cons kv rest ih =>
      intro k hn
      simp only [List.map_cons, List.nodup_cons] at hn
      by_cases hk : kv.1 = k
      · simp only [eraseKey, hk, if_true]
        exact lookupKey_eq_none_of_not_mem_keys (hk ▸ hn.1)
      · simp only [eraseKey, hk, if_false, lookupKey]
        simp [hk, ih k hn.2]

theorem pruneExpired_cons (kv : String × List (String × RendRecord)) (rest : Registry) (now : Int) :
    pruneExpired (kv :: rest) now
      = if (kv.2.filter (fun pr => decide (now < pr.2.expiresAt))).isEmpty
        then pruneExpired rest now
        else (kv.1, kv.2.filter (fun pr => decide (now < pr.2.expiresAt))) :: pruneExpired rest now := by
  simp only [pruneExpired, List.map_cons, List.filter_cons]
  by_cases h : (kv.2.filter (fun pr => decide (now < pr.2.expiresAt))).isEmpty
  · simp [h]
  · simp [h]

theorem keys_pruneExpired_sublist (reg : Registry) (now : Int) :
    ((pruneExpired reg now).map Prod.fst).Sublist (reg.map Prod.fst) := by
  induction reg with
  | nil => simp [pruneExpired]
  | cons kv rest ih =>
      rw [pruneExpired_cons]
      by_cases hc : (kv.2.filter (fun pr => decide (now < pr.2.expiresAt))).isEmpty
      · rw [if_pos hc]
        simp only [List.map_cons]
        exact ih.trans (List.sublist_cons_self kv.1 (rest.map Prod.fst))
      · rw [if_neg hc]
        simp only [List.map_cons]
        exact ih.cons₂ kv.1

theorem lookupKey_pruneExpired_of_none {reg : Registry} {key : String} (now : Int)
    (h : lookupKey reg key = none) : lookupKey (pruneExpired reg now) key = none := by
  apply lookupKey_eq_none_of_not_mem_keys
  intro hmem
  exact (lookupKey_eq_none_iff_not_mem_keys.mp h) ((keys_pruneExpired_sublist reg now).subset hmem)

theorem lookupKey_pruneExpired_of_some {reg : Registry} {key : String}
    {recs : List (String × RendRecord)} (now : Int)
    (hn : (reg.map Prod.fst).Nodup) (h : lookupKey reg key = some recs) :
    lookupKey (pruneExpired reg now) key
      = if (recs.filter (fun pr => decide (now < pr.2.expiresAt))).isEmpty
        then none else some (recs.filter (fun pr => decide (now < pr.2.expiresAt))) := by
  induction reg with
  | nil => simp [lookupKey] at h
  | cons kv rest ih =>
      simp only [List.map_cons, List.nodup_cons] at hn
      rw [pruneExpired_cons]
      by_cases hk : kv.1 = key
      · have hrecs : kv.2 = recs := by simp [lookupKey, hk] at h; exact h
        have hnone : lookupKey (pruneExpired rest now) key = none := by
          apply lookupKey_pruneExpired_of_none
          exact lookupKey_eq_none_of_not_mem_keys (hk ▸ hn.1)
        by_cases hc : (recs.filter (fun pr => decide (now < pr.2.expiresAt))).isEmpty
        · rw [hrecs, if_pos hc, if_pos hc]
          exact hnone
        · rw [hrecs, if_neg hc, if_neg hc]
          simp [lookupKey, hk]
      · have htail : lookupKey rest key = some recs := by simp [lookupKey, hk] at h; exact h
        by_cases hc : (kv.2.filter (fun pr => decide (now < pr.2.expiresAt))).isEmpty
        · rw [if_pos hc]
          exact ih hn.2 htail
        · rw [if_neg hc]
          simp only [lookupKey, hk, if_false]
          exact ih hn.2 htail

theorem roomWF_nil : roomWF [] :=
  ⟨List.nodup_nil, by simp⟩

theorem roomWF_of_sublist {r1 r2 : List (String × RendRecord)} (hs : r1.Sublist r2)
    (h : roomWF r2) : roomWF r1 :=
  ⟨List.Nodup.sublist (List.Sublist.map Prod.fst hs) h.1,
   fun pr hpr => h.2 pr (hs.subset hpr)⟩

theorem roomWF_setKey {recs : List (String × RendRecord)} {p : String} {r : RendRecord}
    (h : roomWF recs) (hr : r.peerId = p) : roomWF (setKey recs p r) := by
  refine ⟨nodup_keys_setKey p r h.1, ?_⟩
  intro pr hpr
  rcases mem_setKey hpr with h1 | h1
  · rw [h1]; exact hr
  · exact h.2 pr h1

theorem regWF_nil : regWF [] :=
  ⟨List.nodup_nil, by simp⟩

theorem roomWF_recordsOfRoom {reg : Registry} {key : String} (h : regWF reg) :
    roomWF (recordsOfRoom reg key) := by
  unfold recordsOfRoom
  cases hv : lookupKey reg key with
  | none => exact roomWF_nil
  | some recs => exact h.2 (key, recs) (mem_of_lookupKey_eq_some hv)

theorem regWF_register (reg : Registry) (ns room p : String) (addrs : List String)
    (ttl : Int) (md : List (String × JsVal)) (now : Int) (h : regWF reg) :
    regWF (register reg ns room p addrs ttl md now).1 := by
  unfold register
  refine ⟨nodup_keys_setKey _ _ h.1, ?_⟩
  intro kv hkv
  rcases mem_setKey hkv with h1 | h1
  · rw [h1]
    exact roomWF_setKey (@roomWF_recordsOfRoom reg (roomKey ns room) h) rfl
  · exact h.2 kv h1

theorem regWF_pruneExpired {reg : Registry} (now : Int) (h : regWF reg) :
    regWF (pruneExpired reg now) := by
  constructor
  · exact List.Nodup.sublist (keys_pruneExpired_sublist reg now) h.1
  · intro kv hkv
    have hkv1 : kv ∈ reg.map
        (fun kv => (kv.1, kv.2.filter (fun pr => decide (now < pr.2.expiresAt)))) :=
      (List.mem_filter.mp hkv).1
    rcases List.mem_map.mp hkv1 with ⟨kv0, hkv0, heq⟩
    have hwf := h.2 kv0 hkv0
    rw [← heq]
    exact roomWF_of_sublist (List.filter_sublist kv0.2) hwf

theorem regWF_removePeer (reg : Registry) (ns room p : String) (h : regWF reg) :
    regWF (removePeer reg ns room p).1 := by
  unfold removePeer
  cases hv : lookupKey reg (roomKey ns room) with
  | none => exact h
  | some recs =>
      have hwfr : roomWF recs := h.2 _ (mem_of_lookupKey_eq_some hv)
      have hwf1 : roomWF (recs.eraseP (fun pr => decide (pr.1 = p))) :=
        roomWF_of_sublist (List.eraseP_sublist recs) hwfr
      by_cases hc : (recs.eraseP (fun pr => decide (pr.1 = p))).isEmpty
      · simp only [hc, if_true]
        constructor
        · exact List.Nodup.sublist (List.Sublist.map Prod.fst (eraseKey_sublist reg _)) h.1
        · intro kv hkv
          exact h.2 kv ((eraseKey_sublist reg _).subset hkv)
      · simp only [hc, if_false]
        refine ⟨nodup_keys_setKey _ _ h.1, ?_⟩
        intro kv hkv
        rcases mem_setKey hkv with h1 | h1
        · rw [h1]; exact hwf1
        · exact h.2 kv h1

theorem countP_peerId_eq_countKey :
    ∀ (recs : List (String × RendRecord)) (p : String),
      (∀ pr ∈ recs, pr.2.peerId = pr.1) →
      recs.countP (fun pr => decide (pr.2.peerId = p)) = countKey recs p := by
  intro recs
  induction recs with
  | nil => intro p _; rfl
  | cons pr rest ih =>
      intro p h
      have hhd : pr.2.peerId = pr.1 := h pr (List.mem_cons_self pr rest)
      simp only [countKey, List.countP_cons] at ih ⊢
      rw [ih p (fun x hx => h x (List.mem_cons_of_mem _ hx)), hhd]

theorem goodReg_register {reg : Registry} (ns room p : String) (addrs : List String)
    (ttl : Int) (md : List (String × JsVal)) (now : Int)
    (h : ∀ kv ∈ reg, ∀ pr ∈ kv.2, pr.2.seenAt < pr.2.expiresAt) (ht : 0 < ttl) :
    ∀ kv ∈ (register reg ns room p addrs ttl md now).1,
      ∀ pr ∈ kv.2, pr.2.seenAt < pr.2.expiresAt := by
  intro kv hkv pr hpr
  unfold register at hkv
  rcases mem_setKey hkv with h1 | h1
  · rw [h1] at hpr
    simp only at hpr
    rcases mem_setKey hpr with h2 | h2
    · rw [h2]
      simp only
      omega
    · cases hv : lookupKey reg (roomKey ns room) with
      | none => rw [hv] at h2; simp at h2
      | some recs =>
          rw [hv] at h2
          exact h (roomKey ns room, recs) (mem_of_lookupKey_eq_some hv) pr h2
  · exact h kv h1 pr hpr

theorem effTtl_pos (t : TtlField) (h : ∀ n, t = TtlField.num n → 0 ≤ n) : 0 < effTtl t := by
  cases t with
  | num n =>
      have := h n rfl
      by_cases hz : n = 0
      · simp [effTtl, hz]
      · simp only [effTtl, hz, if_false]
        omega
  | absent => simp [effTtl]
  | nullv => simp [effTtl]
  | emptyStr => simp [effTtl]

theorem goodReg_fold :
    ∀ (events : List RegEvent) (reg : Registry),
      (∀ kv ∈ reg, ∀ pr ∈ kv.2, pr.2.seenAt < pr.2.expiresAt) →
      (∀ e ∈ events, eventTtlOk e = true) →
      ∀ kv ∈ events.foldl applyRegEvent reg, ∀ pr ∈ kv.2, pr.2.seenAt < pr.2.expiresAt := by
  intro events
  induction events with
  | nil => intro reg h _; simpa using h
  | cons e rest ih =>
      intro reg h he
      simp only [List.foldl_cons]
      apply ih
      · cases e with
        | wsRegister ns room pid ip now =>
            exact goodReg_register ns room pid [ip] 60000 _ now h (by omega)
        | postRegister ns room pid addrs t now =>
            apply goodReg_register ns room pid addrs (effTtl t) [] now h
            apply effTtl_pos
            intro n hn
            have := he (.postRegister ns room pid addrs t now) (List.mem_cons_self _ _)
            rw [hn] at this
            simpa [eventTtlOk] using this
      · intro e1 h1
        exact he e1 (List.mem_cons_of_mem _ h1)

theorem feedMessages_inWindow (maxM wst : Nat) :
    ∀ (ts : List Nat) (c : Nat), c ≤ maxM → (∀ t ∈ ts, t < wst + 60000) →
      feedMessages maxM (some ⟨wst, c⟩) ts = some ⟨wst, min (c + ts.length) maxM⟩ := by
  intro ts
  induction ts with
  | nil =>
      intro c hc _
      have hmin : min (c + List.length ([] : List Nat)) maxM = c := by
        simp only [List.length_nil]
        omega
      rw [hmin]
      rfl
  | cons t rest ih =>
      intro c hc hts
      have htw : t < wst + 60000 := hts t (List.mem_cons_self t rest)
      have hreset : ¬ (t ≥ wst + 60000) := by omega
      simp only [feedMessages]
      by_cases hcm : c ≥ maxM
      · have hb : (allowMessage (some ⟨wst, c⟩) t maxM).2.1 = ⟨wst, c⟩ := by
          simp [allowMessage, hreset, hcm]
        rw [hb, ih c hc (fun t1 h1 => hts t1 (List.mem_cons_of_mem t h1))]
        have : min (c + rest.length) maxM = min (c + (t :: rest).length) maxM := by
          simp only [List.length_cons]
          omega
        rw [this]
      · have hb : (allowMessage (some ⟨wst, c⟩) t maxM).2.1 = ⟨wst, c + 1⟩ := by
          simp [allowMessage, hreset, hcm]
        rw [hb, ih (c + 1) (by omega) (fun t1 h1 => hts t1 (List.mem_cons_of_mem t h1))]
        have : min (c + 1 + rest.length) maxM = min (c + (t :: rest).length) maxM := by
          simp only [List.length_cons]
          omega
        rw [this]

theorem handleMessage_rejected {bucket : Option MsgBucket} {now maxM : Nat}
    {b : MsgBucket} {rl : Nat} (h : allowMessage bucket now maxM = (false, b, rl))
    (parsed : Option JsObj) (peerId ns room receivedAt : String) :
    handleMessage bucket now maxM parsed peerId ns room receivedAt
      = ⟨b, [errEnvelope "rate_limited"], none, 0, rl⟩ := by
  unfold handleMessage
  rw [h]

theorem handleMessage_admitted {bucket : Option MsgBucket} {now maxM : Nat}
    {b : MsgBucket} {z : Nat} (h : allowMessage bucket now maxM = (true, b, z))
    (parsed : Option JsObj) (peerId ns room receivedAt : String) :
    (handleMessage bucket now maxM parsed peerId ns room receivedAt).messagesInc = 1
    ∧ (handleMessage bucket now maxM parsed peerId ns room receivedAt).rateLimitedInc = 0 := by
  unfold handleMessage
  rw [h]
  cases parsed with
  | none => exact ⟨rfl, rfl⟩
  | some message =>
      by_cases h1 : msgType message = some (JsVal.str "heartbeat")
      · simp [h1]
      · by_cases h2 : msgType message = some (JsVal.str "telemetry")
        · simp [h1, h2]
        · simp [h1, h2]

theorem handleMessage_relay_payload {bucket : Option MsgBucket} {now maxM : Nat}
    {b : MsgBucket} {z : Nat} (h : allowMessage bucket now maxM = (true, b, z))
    (message : JsObj) (peerId ns room receivedAt : String)
    (h1 : msgType message ≠ some (JsVal.str "heartbeat"))
    (h2 : msgType message ≠ some (JsVal.str "telemetry")) :
    (handleMessage bucket now maxM (some message) peerId ns room receivedAt).relayed
      = some (stampEnvelope message peerId ns room receivedAt) := by
  unfold handleMessage
  rw [h]
  simp [h1, h2]

theorem relaySends_eq (members : List Session) (senderId : String) (payload : JsObj) :
    relaySends members senderId payload
      = (members.filter (fun ws => decide (ws.isOpen = true ∧ ws.peerId ≠ senderId))).map
          (fun ws => (ws, payload)) := by
  induction members with
  | nil => rfl
  | cons ws rest ih =>
      by_cases h1 : ws.isOpen = false ∨ ws.peerId = senderId
      · have hno : ¬ (ws.isOpen = true ∧ ws.peerId ≠ senderId) := by
          rcases h1 with h1 | h1
          · intro hx; rw [h1] at hx; cases hx.1
          · intro hx; exact hx.2 h1
        simp [relaySends, h1, List.filter_cons, hno, ih]
      · push_neg at h1
        have hyes : ws.isOpen = true ∧ ws.peerId ≠ senderId := by
          refine ⟨?_, h1.2⟩
          cases hh : ws.isOpen with
          | false => exact absurd hh h1.1
          | true => rfl
        have hno : ¬ (ws.isOpen = false ∨ ws.peerId = senderId) := by
          intro hx
          rcases hx with hx | hx
          · rw [hyes.1] at hx; cases hx
          · exact hyes.2 hx
        simp [relaySends, hno, List.filter_cons, hyes, ih]

theorem nat_or_eq_zero_iff (a b : Nat) : a ||| b = 0 ↔ a = 0 ∧ b = 0 := by
  constructor
  · intro h
    refine ⟨Nat.eq_of_testBit_eq fun i => ?_, Nat.eq_of_testBit_eq fun i => ?_⟩ <;>
    · have ht := congrArg (fun n => Nat.testBit n i) h
      simp [Nat.testBit_or] at ht
      simp [ht.1, ht.2]
  · rintro ⟨rfl, rfl⟩
    rfl

theorem foldl_or_shift (g : Nat × Nat → Nat) :
    ∀ (l : List (Nat × Nat)) (acc : Nat),
      l.foldl (fun a p => a ||| g p) acc = acc ||| l.foldl (fun a p => a ||| g p) 0 := by
  intro l
  induction l with
  | nil => intro acc; simp
  | cons x rest ih =>
      intro acc
      simp only [List.foldl_cons]
      rw [ih (acc ||| g x), ih (0 ||| g x), Nat.zero_or, Nat.or_assoc]

theorem timingSafeEqual_iff :
    ∀ (a b : List Nat), a.length = b.length → (timingSafeEqual a b = true ↔ a = b) := by
  intro a
  induction a with
  | nil =>
      intro b hb
      cases b with
      | nil => simp [timingSafeEqual]
      | cons y ys => simp at hb
  | cons x xs ih =>
      intro b hb
      cases b with
      | nil => simp at hb
      | cons y ys =>
          simp only [List.length_cons] at hb
          have hlen : xs.length = ys.length := by omega
          unfold timingSafeEqual
          simp only [List.zip_cons_cons, List.foldl_cons, Nat.zero_or, decide_eq_true_eq]
          rw [foldl_or_shift, nat_or_eq_zero_iff, Nat.xor_eq_zero]
          have hxs := ih ys hlen
          unfold timingSafeEqual at hxs
          simp only [decide_eq_true_eq] at hxs
          rw [hxs]
          simp

theorem char_toNat_inj : Function.Injective Char.toNat := by
  intro c d h
  apply Char.eq_of_val_eq
  apply UInt32.eq_of_val_eq
  apply Fin.eq_of_val_eq
  exact h

theorem bufBytes_inj {s t : String} (h : bufBytes s = bufBytes t) : s = t := by
  unfold bufBytes at h
  have hdata : s.data = t.data := List.map_injective_iff.mpr char_toNat_inj h
  obtain ⟨ds⟩ := s
  obtain ⟨dt⟩ := t
  simp only at hdata
  rw [hdata]

theorem countKey_filter_unique {α : Type} (q : String × α → Bool)
    {m : List (String × α)} {k : String} {v : α}
    (hn : (m.map Prod.fst).Nodup) (hm : (k, v) ∈ m) (hq : q (k, v) = true) :
    countKey (m.filter q) k = 1 := by
  rw [countKey, List.countP_filter]
  exact countP_key_unique q m k v hn hm hq

theorem discover_of_lookup_none {reg : Registry} {ns room : String} {limit : Nat} {now : Int}
    (h : lookupKey (pruneExpired reg now) (roomKey ns room) = none) :
    (discover reg ns room limit now).2 = [] := by
  simp only [discover]
  rw [h]

theorem discover_of_lookup_some {reg : Registry} {ns room : String} {limit : Nat} {now : Int}
    {recs : List (String × RendRecord)}
    (h : lookupKey (pruneExpired reg now) (roomKey ns room) = some recs) :
    (discover reg ns room limit now).2
      = ((recs.map Prod.snd).mergeSort (fun a b => decide (b.seenAt ≤ a.seenAt))).take limit := by
  simp only [discover]
  rw [h]

/-- C1: evaluation of the upgrade pipeline at the failing input.  A single
handshake attempt that passes the connection rate check and then fails the
token check leaves the per-address connection counter at 1 (entry present)
while no room member exists and the active-connections gauge is 0, so the
claimed equality of the three quantities, and the absence of zero-count
entries, fail at this reachable state. -/
theorem c1_connection_bucket_leak :
    roomMemberSum (runEvents 12 [SrvEvent.handshake 1 "203.0.113.7" "n" "r" "A" false]) = 0
    ∧ (runEvents 12 [SrvEvent.handshake 1 "203.0.113.7" "n" "r" "A" false]).wsActiveConnections = 0
    ∧ bucketSum (runEvents 12 [SrvEvent.handshake 1 "203.0.113.7" "n" "r" "A" false]) = 1
    ∧ lookupKey (runEvents 12
        [SrvEvent.handshake 1 "203.0.113.7" "n" "r" "A" false]).connectionsByIp "203.0.113.7"
        = some 1 := by
  refine ⟨rfl, rfl, rfl, rfl⟩

/-- C2: the fan-out loop sends the payload exactly to the members that are
open and whose peer id differs from the sender id, so no send from a sender
reaches the sender itself. -/
theorem c2_fanout_excludes_sender :
    ∀ (members : List Session) (senderId : String) (payload : JsObj) (pr : Session × JsObj),
      relaySends members senderId payload
        = (members.filter (fun ws => decide (ws.isOpen = true ∧ ws.peerId ≠ senderId))).map
            (fun ws => (ws, payload))
      ∧ (pr ∈ relaySends members senderId payload → pr.1.peerId ≠ senderId) := by
  intro members senderId payload pr
  refine ⟨relaySends_eq members senderId payload, ?_⟩
  intro hpr
  rw [relaySends_eq] at hpr
  rcases List.mem_map.mp hpr with ⟨ws, hws, heq⟩
  have hf := (List.mem_filter.mp hws).2
  simp only [decide_eq_true_eq] at hf
  rw [← heq]
  exact hf.2

/-- Witness for C2 at a concrete room: the recipient produced for the room
[A, B] with sender A is B, whose peer id differs from A. -/
theorem c2_fanout_excludes_sender_witness :
    (((⟨2, "B", "ip2", true⟩ : Session), ([] : JsObj)).1.peerId ≠ "A") :=
  (c2_fanout_excludes_sender
      [⟨1, "A", "ip1", true⟩, ⟨2, "B", "ip2", true⟩] "A" []
      (⟨2, "B", "ip2", true⟩, [])).2 (by decide)

/-- C3: the relay envelope is the shallow merge of the client object with
the four server-stamped fields: each stamped field reads back as the server
value (overwriting any client-supplied one), every other field reads back
unchanged, and the payload handed to fan-out for a non-heartbeat,
non-telemetry message is exactly this merge. -/
theorem c3_relay_envelope_merge :
    ∀ (message : JsObj) (peerId ns room receivedAt k : String)
      (bucket : Option MsgBucket) (now maxM : Nat),
      jsGet (stampEnvelope message peerId ns room receivedAt) "sourcePeerId"
          = some (JsVal.str peerId)
      ∧ jsGet (stampEnvelope message peerId ns room receivedAt) "namespace"
          = some (JsVal.str ns)
      ∧ jsGet (stampEnvelope message peerId ns room receivedAt) "room"
          = some (JsVal.str room)
      ∧ jsGet (stampEnvelope message peerId ns room receivedAt) "receivedAt"
          = some (JsVal.str receivedAt)
      ∧ (k ≠ "sourcePeerId" → k ≠ "namespace" → k ≠ "room" → k ≠ "receivedAt" →
          jsGet (stampEnvelope message peerId ns room receivedAt) k = jsGet message k)
      ∧ ((allowMessage bucket now maxM).1 = true →
          msgType message ≠ some (JsVal.str "heartbeat") →
          msgType message ≠ some (JsVal.str "telemetry") →
          (handleMessage bucket now maxM (some message) peerId ns room receivedAt).relayed
            = some (stampEnvelope message peerId ns room receivedAt)) := by
  intro message peerId ns room receivedAt k bucket now maxM
  refine ⟨?_, ?_, ?_, ?_, ?_, ?_⟩
  · unfold stampEnvelope jsGet
    rw [lookupKey_setKey_ne _ _ _ _ (by decide), lookupKey_setKey_ne _ _ _ _ (by decide),
      lookupKey_setKey_ne _ _ _ _ (by decide), lookupKey_setKey_self]
  · unfold stampEnvelope jsGet
    rw [lookupKey_setKey_ne _ _ _ _ (by decide), lookupKey_setKey_ne _ _ _ _ (by decide),
      lookupKey_setKey_self]
  · unfold stampEnvelope jsGet
    rw [lookupKey_setKey_ne _ _ _ _ (by decide), lookupKey_setKey_self]
  · unfold stampEnvelope jsGet
    rw [lookupKey_setKey_self]
  · intro h1 h2 h3 h4
    unfold stampEnvelope jsGet
    rw [lookupKey_setKey_ne _ _ _ _ h4, lookupKey_setKey_ne _ _ _ _ h3,
      lookupKey_setKey_ne _ _ _ _ h2, lookupKey_setKey_ne _ _ _ _ h1]
  · intro ha h1 h2
    rcases hav : allowMessage bucket now maxM with ⟨b1, b2, z⟩
    rw [hav] at ha
    simp only at ha
    subst ha
    exact handleMessage_relay_payload hav message peerId ns room receivedAt h1 h2

/-- Witness for C3 at a concrete message that supplies its own room field:
the stamped envelope overwrites room, keeps the sdp field and is the
relayed payload. -/
theorem c3_relay_envelope_merge_witness :
    jsGet (stampEnvelope [("sdp", JsVal.str "v=0"), ("room", JsVal.str "evil")]
        "A" "n" "r" "t0") "room" = some (JsVal.str "r")
    ∧ jsGet (stampEnvelope [("sdp", JsVal.str "v=0"), ("room", JsVal.str "evil")]
        "A" "n" "r" "t0") "sdp"
        = jsGet [("sdp", JsVal.str "v=0"), ("room", JsVal.str "evil")] "sdp"
    ∧ (handleMessage none 0 300
        (some [("sdp", JsVal.str "v=0"), ("room", JsVal.str "evil")]) "A" "n" "r" "t0").relayed
        = some (stampEnvelope [("sdp", JsVal.str "v=0"), ("room", JsVal.str "evil")]
            "A" "n" "r" "t0") :=
  ⟨(c3_relay_envelope_merge [("sdp", JsVal.str "v=0"), ("room", JsVal.str "evil")]
      "A" "n" "r" "t0" "sdp" none 0 300).2.2.1,
   (c3_relay_envelope_merge [("sdp", JsVal.str "v=0"), ("room", JsVal.str "evil")]
      "A" "n" "r" "t0" "sdp" none 0 300).2.2.2.2.1
        (by decide) (by decide) (by decide) (by decide),
   (c3_relay_envelope_merge [("sdp", JsVal.str "v=0"), ("room", JsVal.str "evil")]
      "A" "n" "r" "t0" "sdp" none 0 300).2.2.2.2.2
        (by decide) (by decide) (by decide)⟩

/-- C4: validateToken accepts exactly when no digest is configured, or the
raw token is non-empty and its hash equals the configured digest; in
particular an empty token is always rejected under a configured digest and
everything passes when none is configured. -/
theorem c4_validateToken_spec :
    ∀ (sha256hex : String → String) (digest raw : String),
      validateToken sha256hex digest raw = true
        ↔ (digest = "" ∨ (raw ≠ "" ∧ sha256hex raw = digest)) := by
  intro sha256hex digest raw
  by_cases hd : digest = ""
  · simp [validateToken, hd]
  · by_cases hr : raw = ""
    · simp [validateToken, hd, hr]
    · by_cases hl : (bufBytes (sha256hex raw)).length = (bufBytes digest).length
      · have : validateToken sha256hex digest raw
            = timingSafeEqual (bufBytes (sha256hex raw)) (bufBytes digest) := by
          simp [validateToken, hd, hr, hl]
        rw [this, timingSafeEqual_iff _ _ hl]
        constructor
        · intro he
          exact Or.inr ⟨hr, bufBytes_inj he⟩
        · rintro (he | ⟨_, he⟩)
          · exact absurd he hd
          · rw [he]
      · have : validateToken sha256hex digest raw = false := by
          simp [validateToken, hd, hr, hl]
        rw [this]
        constructor
        · intro he
          cases he
        · rintro (he | ⟨_, he⟩)
          · exact absurd he hd
          · exact absurd (by rw [he]) hl

/-- C5: with the window opened at ws and M in-window messages already fed
from one address, the next in-window message is rejected exactly when
M reaches the cap; a rejected message produces the rate_limited error
envelope to the offender, is not relayed, does not count in
wsMessagesTotal, and increments wsRateLimitedTotal; below the cap the
message is admitted and counted.  The window itself rolls once now reaches
windowStart + 60000. -/
theorem c5_message_rate_limit :
    ∀ (maxM ws now : Nat) (ts : List Nat) (parsed : Option JsObj)
      (peerId ns room receivedAt : String) (b : MsgBucket) (n maxM2 : Nat),
      ((∀ t ∈ ts, t < ws + 60000) → now < ws + 60000 →
        ((maxM ≤ ts.length →
            handleAfter maxM ws now ts parsed peerId ns room receivedAt
              = ⟨⟨ws, maxM⟩, [errEnvelope "rate_limited"], none, 0, 1⟩)
          ∧ (ts.length < maxM →
              (handleAfter maxM ws now ts parsed peerId ns room receivedAt).rateLimitedInc = 0
              ∧ (handleAfter maxM ws now ts parsed peerId ns room receivedAt).messagesInc = 1)))
      ∧ (b.windowStart + 60000 ≤ n → 0 < maxM2 →
          allowMessage (some b) n maxM2 = (true, ⟨n, 1⟩, 0)) := by
  intro maxM ws now ts parsed peerId ns room receivedAt b n maxM2
  constructor
  · intro hts hnow
    have hfeed := feedMessages_inWindow maxM ws ts 0 (by omega) hts
    simp only [Nat.zero_add] at hfeed
    constructor
    · intro hM
      have hmin : min ts.length maxM = maxM := by omega
      have hrej : allowMessage (some ⟨ws, min ts.length maxM⟩) now maxM
          = (false, ⟨ws, maxM⟩, 1) := by
        simp [allowMessage, hmin, show ¬ (now ≥ ws + 60000) by omega]
      unfold handleAfter
      rw [hfeed]
      exact handleMessage_rejected hrej parsed peerId ns room receivedAt
    · intro hM
      have hmin : min ts.length maxM = ts.length := by omega
      have hadm : allowMessage (some ⟨ws, min ts.length maxM⟩) now maxM
          = (true, ⟨ws, ts.length + 1⟩, 0) := by
        simp [allowMessage, hmin, show ¬ (now ≥ ws + 60000) by omega,
          show ¬ (ts.length ≥ maxM) by omega]
      unfold handleAfter
      rw [hfeed]
      have h := handleMessage_admitted hadm parsed peerId ns room receivedAt
      exact ⟨h.2, h.1⟩
  · intro hreset hpos
    simp [allowMessage, hreset, show ¬ ((0:Nat) ≥ maxM2) by omega]

/-- Witness for C5: cap 2, two messages already in the window, the third is
rejected with the full observable outcome; and a bucket rolls at the window
boundary. -/
theorem c5_message_rate_limit_witness :
    handleAfter 2 0 3 [1, 2] (some [("type", JsVal.str "offer")]) "A" "n" "r" "t0"
      = ⟨⟨0, 2⟩, [errEnvelope "rate_limited"], none, 0, 1⟩
    ∧ allowMessage (some ⟨0, 0⟩) 70000 5 = (true, ⟨70000, 1⟩, 0) :=
  ⟨((c5_message_rate_limit 2 0 3 [1, 2] (some [("type", JsVal.str "offer")])
      "A" "n" "r" "t0" ⟨0, 0⟩ 70000 5).1 (by decide) (by decide)).1 (by decide),
   (c5_message_rate_limit 2 0 3 [1, 2] (some [("type", JsVal.str "offer")])
      "A" "n" "r" "t0" ⟨0, 0⟩ 70000 5).2 (by decide) (by decide)⟩

/-- C6: counterexample.  A POST register call may carry a negative ttlMs,
which the handler passes through, so the resulting reachable registry
contains a record with expiresAt below seenAt: the claimed invariant fails
for arbitrary ttlMs values. -/
theorem c6_ttl_counterexample :
    (lookupKey ((lookupKey (runRegEvents
        [RegEvent.postRegister "n" "r" "p" [] (TtlField.num (-1)) 1000]) (roomKey "n" "r")).getD [])
        "p").map (fun r => (r.seenAt, r.expiresAt)) = some (1000, 999)
    ∧ ¬ (∀ kv ∈ runRegEvents [RegEvent.postRegister "n" "r" "p" [] (TtlField.num (-1)) 1000],
          ∀ pr ∈ kv.2, pr.2.seenAt < pr.2.expiresAt) := by
  refine ⟨rfl, ?_⟩
  decide

/-- C6 (amended): register always stores seenAt = now and
expiresAt = now + ttl; and over every sequence of register calls whose
ttlMs fields are nonnegative (the websocket path always is, and falsy POST
values fall back to the positive default) every record of the reachable
registry satisfies expiresAt greater than seenAt. -/
theorem c6_ttl_invariant_amended :
    ∀ (reg : Registry) (ns room p : String) (addrs : List String) (ttl : Int)
      (md : List (String × JsVal)) (now : Int) (events : List RegEvent),
      ((register reg ns room p addrs ttl md now).2.seenAt = now
        ∧ (register reg ns room p addrs ttl md now).2.expiresAt = now + ttl)
      ∧ ((∀ e ∈ events, eventTtlOk e = true) →
          ∀ kv ∈ runRegEvents events, ∀ pr ∈ kv.2, pr.2.seenAt < pr.2.expiresAt) := by
  intro reg ns room p addrs ttl md now events
  refine ⟨⟨rfl, rfl⟩, ?_⟩
  intro he
  exact goodReg_fold events [] (by simp) he

/-- Witness for C6 (amended) at a concrete trace: a POST register with
ttlMs 0 stores the default-expiry record, whose expiry exceeds its seen
time. -/
theorem c6_ttl_invariant_amended_witness :
    (register ([] : Registry) "n" "r" "p" [] 60000 [] (5 : Int)).2.seenAt = 5
    ∧ (("p", (⟨"p", "n", "r", [], [], 5, 60005⟩ : RendRecord)) :
        String × RendRecord).2.seenAt
      < (("p", (⟨"p", "n", "r", [], [], 5, 60005⟩ : RendRecord)) :
        String × RendRecord).2.expiresAt :=
  ⟨(c6_ttl_invariant_amended [] "n" "r" "p" [] 60000 [] 5 []).1.1,
   (c6_ttl_invariant_amended [] "n" "r" "p" [] 60000 [] 5
      [RegEvent.postRegister "n" "r" "p" [] (TtlField.num 0) 5]).2 (by decide)
      (roomKey "n" "r", [("p", ⟨"p", "n", "r", [], [], 5, 60005⟩)]) (by decide)
      ("p", ⟨"p", "n", "r", [], [], 5, 60005⟩) (by decide)⟩

/-- C7: after pruning at time t, every room still present is nonempty and
every remaining record has expiresAt strictly above t (equivalently, every
record with expiresAt at or below t is gone). -/
theorem c7_prune_correct :
    ∀ (reg : Registry) (t : Int) (kv : String × List (String × RendRecord)),
      kv ∈ pruneExpired reg t →
      kv.2 ≠ [] ∧ ∀ pr ∈ kv.2, t < pr.2.expiresAt := by
  intro reg t kv hkv
  have h1 := List.mem_filter.mp hkv
  constructor
  · intro hnil
    rw [hnil] at h1
    simp at h1
  · intro pr hpr
    rcases List.mem_map.mp h1.1 with ⟨kv0, _, heq⟩
    rw [← heq] at hpr
    simp only at hpr
    have := (List.mem_filter.mp hpr).2
    simpa using this

/-- Witness for C7 at a concrete registry: a record expiring at 10 survives
a prune at 3, in a nonempty room. -/
theorem c7_prune_correct_witness :
    ([("p", (⟨"p", "n", "r", [], [], 0, 10⟩ : RendRecord))] : List (String × RendRecord)) ≠ []
    ∧ (3 : Int) < (("p", (⟨"p", "n", "r", [], [], 0, 10⟩ : RendRecord)) :
        String × RendRecord).2.expiresAt :=
  ⟨(c7_prune_correct [("k", [("p", ⟨"p", "n", "r", [], [], 0, 10⟩)])] 3
      ("k", [("p", ⟨"p", "n", "r", [], [], 0, 10⟩)]) (by decide)).1,
   (c7_prune_correct [("k", [("p", ⟨"p", "n", "r", [], [], 0, 10⟩)])] 3
      ("k", [("p", ⟨"p", "n", "r", [], [], 0, 10⟩)]) (by decide)).2
      ("p", ⟨"p", "n", "r", [], [], 0, 10⟩) (by decide)⟩

/-- C9: fan-out exclusion compares peer-id strings, not session identity:
any member whose peerId equals the sender id is skipped, even when it is a
different live session; and the upgrade path admits a second session with
an already used client-supplied peerId into the same room, after which a
relay from that id reaches neither of the two. -/
theorem c9_duplicate_peer_id :
    ∀ (members : List Session) (senderId : String) (payload : JsObj) (t : Session),
      (t ∈ members → t.peerId = senderId →
        t ∉ (relaySends members senderId payload).map Prod.fst)
      ∧ ((lookupKey (runEvents 12 [SrvEvent.handshake 1 "ip1" "n" "r" "A" true,
            SrvEvent.handshake 2 "ip2" "n" "r" "A" true]).rooms (roomKey "n" "r")).getD []
          = [⟨1, "A", "ip1", true⟩, ⟨2, "A", "ip2", true⟩]
        ∧ relaySends [⟨1, "A", "ip1", true⟩, ⟨2, "A", "ip2", true⟩] "A" payload = []) := by
  intro members senderId payload t
  constructor
  · intro _ hpid hmem
    rw [relaySends_eq] at hmem
    rw [List.map_map] at hmem
    rcases List.mem_map.mp hmem with ⟨ws, hws, heq⟩
    have hf := (List.mem_filter.mp hws).2
    simp only [decide_eq_true_eq] at hf
    have : ws = t := heq
    rw [this] at hf
    exact hf.2 hpid
  · refine ⟨rfl, ?_⟩
    rfl

/-- Witness for C9: in a room holding two distinct sessions that both carry
peerId A, the non-sender duplicate receives nothing when A sends. -/
theorem c9_duplicate_peer_id_witness :
    (⟨2, "A", "ip2", true⟩ : Session)
      ∉ (relaySends [⟨1, "A", "ip1", true⟩, ⟨2, "A", "ip2", true⟩] "A" []).map Prod.fst :=
  (c9_duplicate_peer_id [⟨1, "A", "ip1", true⟩, ⟨2, "A", "ip2", true⟩] "A" []
    ⟨2, "A", "ip2", true⟩).1 (by decide) (by decide)

/-- C10: the rendezvous/register handler coerces every falsy ttlMs (absent,
null, empty string, zero) to the default 60000 and passes every non-zero
number, including negative ones, through; the stored record TTL is exactly
this effective value. -/
theorem c10_ttl_defaulting :
    ∀ (n : Int) (reg : Registry) (ns room p : String) (addrs : List String)
      (t : TtlField) (now : Int),
      effTtl TtlField.absent = 60000
      ∧ effTtl TtlField.nullv = 60000
      ∧ effTtl TtlField.emptyStr = 60000
      ∧ effTtl (TtlField.num 0) = 60000
      ∧ (n ≠ 0 → effTtl (TtlField.num n) = n)
      ∧ (lookupKey (recordsOfRoom
            (applyRegEvent reg (RegEvent.postRegister ns room p addrs t now)) (roomKey ns room))
            p).map (fun r => r.expiresAt - r.seenAt) = some (effTtl t) := by
  intro n reg ns room p addrs t now
  refine ⟨rfl, rfl, rfl, ?_, ?_, ?_⟩
  · simp [effTtl]
  · intro hn
    simp [effTtl, hn]
  · unfold applyRegEvent register recordsOfRoom
    rw [lookupKey_setKey_self]
    simp only [Option.getD_some]
    rw [lookupKey_setKey_self]
    show some (now + effTtl t - now) = some (effTtl t)
    congr 1
    omega

/-- Witness for C10: a negative ttlMs of -5 is passed through, while ttlMs
0 stores the 60000 default. -/
theorem c10_ttl_defaulting_witness :
    effTtl (TtlField.num (-5)) = -5
    ∧ (lookupKey (recordsOfRoom
          (applyRegEvent [] (RegEvent.postRegister "n" "r" "p" [] (TtlField.num 0) 7))
          (roomKey "n" "r")) "p").map (fun r => r.expiresAt - r.seenAt) = some (effTtl (TtlField.num 0)) :=
  ⟨(c10_ttl_defaulting (-5) [] "n" "r" "p" [] (TtlField.num 0) 7).2.2.2.2.1 (by decide),
   (c10_ttl_defaulting (-5) [] "n" "r" "p" [] (TtlField.num 0) 7).2.2.2.2.2⟩

/-- C8: on a well-formed registry, register followed by discover (with an
unexpired TTL, at a limit covering the surviving room) lists the peer
exactly once; re-registering the same peer id leaves exactly one record,
carrying the latest seenAt; and removePeer reports exactly whether a record
existed, after which the peer no longer appears in discover. -/
theorem c8_register_discover_remove :
    ∀ (reg : Registry) (ns room p : String) (addrs a2 : List String)
      (md m2 : List (String × JsVal)) (ttl t2 now now2 dnow : Int) (limit : Nat),
      regWF reg →
      ((dnow < now + ttl →
          (recordsOfRoom (pruneExpired (register reg ns room p addrs ttl md now).1 dnow)
              (roomKey ns room)).length ≤ limit →
          (discover (register reg ns room p addrs ttl md now).1 ns room limit dnow).2.countP
              (fun r => decide (r.peerId = p)) = 1)
        ∧ (countKey (recordsOfRoom
              (register (register reg ns room p addrs ttl md now).1 ns room p a2 t2 m2 now2).1
              (roomKey ns room)) p = 1
          ∧ (lookupKey (recordsOfRoom
              (register (register reg ns room p addrs ttl md now).1 ns room p a2 t2 m2 now2).1
              (roomKey ns room)) p).map (fun r => r.seenAt) = some now2)
        ∧ ((removePeer reg ns room p).2 = true
            ↔ p ∈ (recordsOfRoom reg (roomKey ns room)).map Prod.fst)
        ∧ (discover (removePeer reg ns room p).1 ns room limit dnow).2.countP
              (fun r => decide (r.peerId = p)) = 0) := by
  intro reg ns room p addrs a2 md m2 ttl t2 now now2 dnow limit hwf
  have hlook1 : lookupKey (register reg ns room p addrs ttl md now).1 (roomKey ns room)
      = some (setKey (recordsOfRoom reg (roomKey ns room)) p
          ⟨p, ns, room, addrs, md, now, now + ttl⟩) := by
    unfold register recordsOfRoom
    exact lookupKey_setKey_self _ _ _
  have hroomWF : roomWF (setKey (recordsOfRoom reg (roomKey ns room)) p
      (⟨p, ns, room, addrs, md, now, now + ttl⟩ : RendRecord)) :=
    roomWF_setKey (roomWF_recordsOfRoom hwf) rfl
  have hmemRM : (p, (⟨p, ns, room, addrs, md, now, now + ttl⟩ : RendRecord))
      ∈ setKey (recordsOfRoom reg (roomKey ns room)) p
          ⟨p, ns, room, addrs, md, now, now + ttl⟩ :=
    mem_of_lookupKey_eq_some (lookupKey_setKey_self _ _ _)
  refine ⟨?_, ⟨?_, ?_⟩, ?_, ?_⟩
  · -- (i) register then discover
    intro hexp hlim
    have hwreg := regWF_register reg ns room p addrs ttl md now hwf
    have hq : (fun pr : String × RendRecord => decide (dnow < pr.2.expiresAt))
        (p, ⟨p, ns, room, addrs, md, now, now + ttl⟩) = true := by
      simp only [decide_eq_true_eq]
      omega
    have hcount : countKey ((setKey (recordsOfRoom reg (roomKey ns room)) p
        (⟨p, ns, room, addrs, md, now, now + ttl⟩ : RendRecord)).filter
          (fun pr => decide (dnow < pr.2.expiresAt))) p = 1 :=
      countKey_filter_unique _ hroomWF.1 hmemRM hq
    have hfne : (setKey (recordsOfRoom reg (roomKey ns room)) p
        (⟨p, ns, room, addrs, md, now, now + ttl⟩ : RendRecord)).filter
          (fun pr => decide (dnow < pr.2.expiresAt)) ≠ [] := by
      intro h0
      rw [h0] at hcount
      simp [countKey] at hcount
    have hprune : lookupKey
        (pruneExpired (register reg ns room p addrs ttl md now).1 dnow) (roomKey ns room)
        = some ((setKey (recordsOfRoom reg (roomKey ns room)) p
            (⟨p, ns, room, addrs, md, now, now + ttl⟩ : RendRecord)).filter
              (fun pr => decide (dnow < pr.2.expiresAt))) := by
      rw [lookupKey_pruneExpired_of_some dnow hwreg.1 hlook1]
      rw [if_neg ?_]
      intro hempty
      exact hfne (List.isEmpty_iff.mp hempty)
    rw [discover_of_lookup_some hprune]
    have hlim1 : (((setKey (recordsOfRoom reg (roomKey ns room)) p
        (⟨p, ns, room, addrs, md, now, now + ttl⟩ : RendRecord)).filter
          (fun pr => decide (dnow < pr.2.expiresAt))).map Prod.snd).length ≤ limit := by
      rw [List.length_map]
      have := hlim
      unfold recordsOfRoom at this
      rw [hprune] at this
      simpa using this
    have hperm := List.mergeSort_perm
      (((setKey (recordsOfRoom reg (roomKey ns room)) p
          (⟨p, ns, room, addrs, md, now, now + ttl⟩ : RendRecord)).filter
            (fun pr => decide (dnow < pr.2.expiresAt))).map Prod.snd)
      (fun a b => decide (b.seenAt ≤ a.seenAt))
    rw [List.take_of_length_le (by rw [hperm.length_eq]; exact hlim1)]
    rw [List.Perm.countP_eq _ hperm]
    rw [List.countP_map]
    have hfield : ∀ pr ∈ (setKey (recordsOfRoom reg (roomKey ns room)) p
        (⟨p, ns, room, addrs, md, now, now + ttl⟩ : RendRecord)).filter
          (fun pr => decide (dnow < pr.2.expiresAt)), pr.2.peerId = pr.1 :=
      fun pr hpr => hroomWF.2 pr ((List.filter_sublist _).subset hpr)
    have := countP_peerId_eq_countKey _ p hfield
    rw [show ((fun r : RendRecord => decide (r.peerId = p)) ∘ Prod.snd)
        = (fun pr : String × RendRecord => decide (pr.2.peerId = p)) from rfl]
    rw [this]
    exact hcount
  · -- (ii) idempotence: count
    have hlook2 : lookupKey
        (register (register reg ns room p addrs ttl md now).1 ns room p a2 t2 m2 now2).1
        (roomKey ns room)
        = some (setKey (setKey (recordsOfRoom reg (roomKey ns room)) p
            ⟨p, ns, room, addrs, md, now, now + ttl⟩) p
            ⟨p, ns, room, a2, m2, now2, now2 + t2⟩) := by
      unfold register recordsOfRoom
      rw [lookupKey_setKey_self, lookupKey_setKey_self]
      simp only [Option.getD_some]
    unfold recordsOfRoom
    rw [hlook2]
    simp only [Option.getD_some]
    exact countKey_setKey_self p _ hroomWF.1
  · -- (ii) idempotence: latest seenAt
    have hlook2 : lookupKey
        (register (register reg ns room p addrs ttl md now).1 ns room p a2 t2 m2 now2).1
        (roomKey ns room)
        = some (setKey (setKey (recordsOfRoom reg (roomKey ns room)) p
            ⟨p, ns, room, addrs, md, now, now + ttl⟩) p
            ⟨p, ns, room, a2, m2, now2, now2 + t2⟩) := by
      unfold register recordsOfRoom
      rw [lookupKey_setKey_self, lookupKey_setKey_self]
      simp only [Option.getD_some]
    unfold recordsOfRoom
    rw [hlook2]
    simp only [Option.getD_some]
    rw [lookupKey_setKey_self]
    rfl
  · -- (iii) removePeer return value
    cases hv : lookupKey reg (roomKey ns room) with
    | none =>
        unfold removePeer recordsOfRoom
        rw [hv]
        simp
    | some recs =>
        have h2 : (removePeer reg ns room p).2 = recs.any (fun pr => decide (pr.1 = p)) := by
          unfold removePeer
          rw [hv]
          show (if (List.eraseP (fun pr => decide (pr.1 = p)) recs).isEmpty = true
              then (eraseKey reg (roomKey ns room), recs.any fun pr => decide (pr.1 = p))
              else (setKey reg (roomKey ns room) (List.eraseP (fun pr => decide (pr.1 = p)) recs),
                recs.any fun pr => decide (pr.1 = p))).2
            = recs.any fun pr => decide (pr.1 = p)
          by_cases hc : (recs.eraseP (fun pr => decide (pr.1 = p))).isEmpty = true
          · rw [if_pos hc]
          · rw [if_neg hc]
        rw [h2]
        unfold recordsOfRoom
        rw [hv]
        simp only [Option.getD_some, List.any_eq_true, decide_eq_true_eq, List.mem_map]
  · -- (iii) removal: peer absent from discover
    have hwf3 : regWF (removePeer reg ns room p).1 := regWF_removePeer reg ns room p hwf
    have hz : countKey (recordsOfRoom (removePeer reg ns room p).1 (roomKey ns room)) p = 0 := by
      cases hv : lookupKey reg (roomKey ns room) with
      | none =>
          unfold removePeer recordsOfRoom
          rw [hv]
          show countKey ((lookupKey reg (roomKey ns room)).getD []) p = 0
          rw [hv]
          rfl
      | some recs =>
          have hroom := hwf.2 _ (mem_of_lookupKey_eq_some hv)
          have he : countKey (recs.eraseP (fun pr => decide (pr.1 = p))) p = 0 :=
            countKey_eraseP_self recs p hroom.1
          unfold removePeer recordsOfRoom
          rw [hv]
          show countKey ((lookupKey
              (if (List.eraseP (fun pr => decide (pr.1 = p)) recs).isEmpty = true
                then (eraseKey reg (roomKey ns room), recs.any fun pr => decide (pr.1 = p))
                else (setKey reg (roomKey ns room) (List.eraseP (fun pr => decide (pr.1 = p)) recs),
                  recs.any fun pr => decide (pr.1 = p))).1
              (roomKey ns room)).getD []) p = 0
          by_cases hc : (recs.eraseP (fun pr => decide (pr.1 = p))).isEmpty = true
          · rw [if_pos hc]
            show countKey ((lookupKey (eraseKey reg (roomKey ns room)) (roomKey ns room)).getD []) p = 0
            rw [lookupKey_eraseKey_self reg (roomKey ns room) hwf.1]
            rfl
          · rw [if_neg hc]
            show countKey ((lookupKey (setKey reg (roomKey ns room)
                (List.eraseP (fun pr => decide (pr.1 = p)) recs)) (roomKey ns room)).getD []) p = 0
            rw [lookupKey_setKey_self]
            exact he
    cases hv3 : lookupKey (pruneExpired (removePeer reg ns room p).1 dnow) (roomKey ns room) with
    | none =>
        rw [discover_of_lookup_none hv3]
        rfl
    | some recs2 =>
        cases hv4 : lookupKey (removePeer reg ns room p).1 (roomKey ns room) with
        | none => rw [lookupKey_pruneExpired_of_none dnow hv4] at hv3; cases hv3
        | some recs3 =>
            have hchar := lookupKey_pruneExpired_of_some dnow hwf3.1 hv4
            rw [hv3] at hchar
            by_cases hc : (recs3.filter (fun pr => decide (dnow < pr.2.expiresAt))).isEmpty
            · rw [if_pos hc] at hchar; cases hchar
            · rw [if_neg hc] at hchar
              have hrecs2 : recs2 = recs3.filter (fun pr => decide (dnow < pr.2.expiresAt)) :=
                Option.some.inj hchar
              rw [discover_of_lookup_some hv3]
              have hfield : ∀ pr ∈ recs2, pr.2.peerId = pr.1 := by
                have hwfp := regWF_pruneExpired dnow hwf3
                have := hwfp.2 (roomKey ns room, recs2) (mem_of_lookupKey_eq_some hv3)
                exact this.2
              have h3 : recs2.countP (fun pr => decide (pr.2.peerId = p)) = countKey recs2 p :=
                countP_peerId_eq_countKey recs2 p hfield
              have h4 : countKey recs2 p ≤ countKey recs3 p := by
                rw [hrecs2, countKey, countKey]
                exact List.Sublist.countP_le _ (List.filter_sublist recs3)
              have h5 : countKey recs3 p = 0 := by
                have := hz
                unfold recordsOfRoom at this
                rw [hv4] at this
                simpa using this
              have hperm := List.mergeSort_perm (recs2.map Prod.snd)
                (fun a b => decide (b.seenAt ≤ a.seenAt))
              have h6 := List.Sublist.countP_le (fun r : RendRecord => decide (r.peerId = p))
                (List.take_sublist limit
                  ((recs2.map Prod.snd).mergeSort (fun a b => decide (b.seenAt ≤ a.seenAt))))
              have h7 := List.Perm.countP_eq (fun r : RendRecord => decide (r.peerId = p)) hperm
              rw [List.countP_map] at h7
              rw [show ((fun r : RendRecord => decide (r.peerId = p)) ∘ Prod.snd)
                  = (fun pr : String × RendRecord => decide (pr.2.peerId = p)) from rfl] at h7
              omega

/-- Witness for C8 at a concrete registry: register p into the empty
registry at time 0 with ttl 10, discover at time 5 with limit 32 lists it
once; double registration leaves one record with the later seenAt; and
removing from the empty registry reports false with an empty discover. -/
theorem c8_register_discover_remove_witness :
    (discover (register ([] : Registry) "n" "r" "p" [] 10 [] 0).1 "n" "r" 32 5).2.countP
        (fun r => decide (r.peerId = "p")) = 1
    ∧ countKey (recordsOfRoom
        (register (register ([] : Registry) "n" "r" "p" [] 10 [] 0).1 "n" "r" "p" [] 10 [] 3).1
        (roomKey "n" "r")) "p" = 1
    ∧ ((removePeer ([] : Registry) "n" "r" "p").2 = true
        ↔ "p" ∈ (recordsOfRoom ([] : Registry) (roomKey "n" "r")).map Prod.fst)
    ∧ (discover (removePeer ([] : Registry) "n" "r" "p").1 "n" "r" 32 5).2.countP
        (fun r => decide (r.peerId = "p")) = 0 :=
  ⟨((c8_register_discover_remove [] "n" "r" "p" [] [] [] [] 10 10 0 3 5 32 regWF_nil).1
      (by decide) (by decide)),
   ((c8_register_discover_remove [] "n" "r" "p" [] [] [] [] 10 10 0 3 5 32 regWF_nil).2.1.1),
   ((c8_register_discover_remove [] "n" "r" "p" [] [] [] [] 10 10 0 3 5 32 regWF_nil).2.2.1),
   ((c8_register_discover_remove [] "n" "r" "p" [] [] [] [] 10 10 0 3 5 32 regWF_nil).2.2.2)⟩

end Signal
